import Mathlib

/-!
Verification development for the pyfsa repository: a regular-expression
front-end (normalization, infix-to-postfix conversion) and two drafts of an
NFA engine (`fa.py` with object-graph states, `finite_automaton.py` with
integer-indexed states), plus the postfix evaluator `scanner.py`.

Python object graphs are embedded as arenas indexed by `Nat`; Python sets as
`Finset Nat` or lists-as-sets where the source pops elements; Python dicts
as association lists with replace-on-insert; code that can raise an
exception or recurse without bound returns `Option` (with explicit fuel for
the unbounded recursion).
-/

namespace Pyfsa

/-! ## Embedding of `scanner/thompson.py` (regex front-end) -/

def LPAREN : Char := '('

def RPAREN : Char := ')'

def CONCATENATION : Char := '.'

def ALTERNATION : Char := '|'

def CLOSURE : Char := '*'

/-- `OPERATORS = {ALTERNATION, CLOSURE}` -/
def OPERATORS : List Char := [ALTERNATION, CLOSURE]

/-- `SPECIAL_CHARS = OPERATORS.union({LPAREN, RPAREN, CONCATENATION})` -/
def SPECIAL_CHARS : List Char := [ALTERNATION, CLOSURE, LPAREN, RPAREN, CONCATENATION]

/-- The `PRECEDENCE` dict of `thompson.py`; keys outside the dict would raise
`KeyError` in Python and are unreachable (the value 9 is arbitrary). -/
def PRECEDENCE (c : Char) : Nat :=
  if c = CLOSURE then 1
  else if c = CONCATENATION then 2
  else if c = ALTERNATION then 3
  else if c = LPAREN then 4
  else if c = RPAREN then 4
  else 9

/-- `should_concatenate` from `format_regex`:
`a != LPAREN and b != RPAREN and a != ALTERNATION and b not in OPERATORS`. -/
def should_concatenate (a b : Char) : Bool :=
  a ≠ LPAREN ∧ b ≠ RPAREN ∧ a ≠ ALTERNATION ∧ b ∉ OPERATORS

/-- Body of the comprehension in `format_regex` at index `i` of `r`:
`c + "." if i + 1 < len(regex) and should_concatenate(c, regex[i + 1]) else c`. -/
def frPiece (r : List Char) (i : Nat) : List Char :=
  if (decide (i + 1 < r.length) && should_concatenate (r.getD i ' ') (r.getD (i + 1) ' ')) then
    [r.getD i ' ', CONCATENATION]
  else
    [r.getD i ' ']

/-- `format_regex`: joins the pieces produced for every index of the input
(`for i, c in enumerate(regex)`). -/
def format_regex (r : List Char) : List Char :=
  ((List.range r.length).map (frPiece r)).flatten

/-- Inner `while True` loop of `convert_to_postfix` for an operator `c`:
while the stack is non-empty and `PRECEDENCE[top] <= PRECEDENCE[c]`, pop the
top to output; then push `c` and break.  The stack has its top at the head.
Returns (new operator stack, new output). -/
def popGE (c : Char) : List Char → List Char → (List Char × List Char)
  | [], out => ([c], out)
  | o :: rest, out =>
    if PRECEDENCE o ≤ PRECEDENCE c then popGE c rest (out ++ [o])
    else (c :: o :: rest, out)

/-- Inner `while True` loop of `convert_to_postfix` for `RPAREN`: pop
operators to output until `LPAREN` is found and discarded; popping an empty
stack raises `IndexError` (modelled as `none`). -/
def popUntilLparen : List Char → List Char → Option (List Char × List Char)
  | [], _ => none
  | o :: rest, out =>
    if o = LPAREN then some (rest, out) else popUntilLparen rest (out ++ [o])

/-- Main scan of `convert_to_postfix` over the input characters, carrying the
output and the operator stack (top at head); at the end the remaining
operators are appended to the output last-pushed-first
(`output.extend(operators[::-1])`). -/
def convGo : List Char → List Char → List Char → Option (List Char)
  | [], out, ops => some (out ++ ops)
  | c :: cs, out, ops =>
    if c ∉ SPECIAL_CHARS then convGo cs (out ++ [c]) ops
    else if c = LPAREN then convGo cs out (c :: ops)
    else if c = RPAREN then
      match popUntilLparen ops out with
      | none => none
      | some (ops', out') => convGo cs out' ops'
    else
      let (ops', out') := popGE c ops out
      convGo cs out' ops'

/-- `convert_to_postfix` from `thompson.py`; `none` models the uncaught
`IndexError` raised on a `)` with no matching `(`. -/
def convert_to_postfix (r : List Char) : Option (List Char) :=
  convGo r [] []

/-! ## Specification-side definitions (from the claims' words)

These are NOT translations of the source: they restate the spec's
description of normalization and of the restricted shunting-yard algorithm,
to be compared with the source embeddings above. -/

/-- Modelled from the spec: insert an explicit concatenation operator between
adjacent tokens `a`, `b` except when `a` is `(`, `b` is `)`, `a` is `|`, or
`b` is `*` or `|`; empty input maps to empty, a single token is unchanged. -/
def normalize_spec : List Char → List Char
  | [] => []
  | [c] => [c]
  | a :: b :: rest =>
    if should_concatenate a b then a :: CONCATENATION :: normalize_spec (b :: rest)
    else a :: normalize_spec (b :: rest)

/-- Modelled from the spec: precedence closure > concatenation > alternation
(higher number = higher precedence); anything else has no precedence. -/
def spec_prec (c : Char) : Nat :=
  if c = CLOSURE then 3 else if c = CONCATENATION then 2 else if c = ALTERNATION then 1 else 0

/-- Modelled from the spec: an encountered operator `c` pops a stacked
operator `o` when `o` is not `(` and `o` has higher-or-equal precedence
(left associativity: equal precedence also pops). -/
def spec_pops (c o : Char) : Bool :=
  o ≠ LPAREN ∧ spec_prec c ≤ spec_prec o

/-- Modelled from the spec: the restricted shunting-yard scan — literals are
emitted directly; `(` is pushed; `)` pops to output until a matching `(` is
discarded (fatal error when absent); any other operator pops every stacked
operator of higher-or-equal precedence before being pushed; at the end the
remaining stacked operators are appended last-pushed-first. -/
def shuntGo : List Char → List Char → List Char → Option (List Char)
  | [], out, ops => some (out ++ ops)
  | c :: cs, out, ops =>
    if c ∉ SPECIAL_CHARS then shuntGo cs (out ++ [c]) ops
    else if c = LPAREN then shuntGo cs out (c :: ops)
    else if c = RPAREN then
      match ops.dropWhile (fun o => o ≠ LPAREN) with
      | [] => none
      | _ :: rest => shuntGo cs (out ++ ops.takeWhile (fun o => o ≠ LPAREN)) rest
    else
      shuntGo cs (out ++ ops.takeWhile (spec_pops c)) (c :: ops.dropWhile (spec_pops c))

/-- Modelled from the spec: the whole infix-to-postfix conversion. -/
def shunting_spec (r : List Char) : Option (List Char) :=
  shuntGo r [] []

/-! ## Embedding of `fa.py` (object-graph NFA draft)

Python `State` objects are entries of an arena indexed by `Nat`; creating a
`State` appends an entry, and the mutating methods (`add_transition`,
`add_epsilon_transition(s)`) become arena updates.  Sets of states become
lists of indices (all sets built by this draft have pairwise-distinct
elements). -/

/-- A `State` of `fa.py`: label, per-symbol transition targets
(`defaultdict(set)` keyed by the symbol string), epsilon-edge target list. -/
structure FaState where
  label : String
  transitions : List (String × List Nat)
  epsilon_transitions : List Nat
deriving DecidableEq, Repr

abbrev FaArena := List FaState

/-- Dereference a state index in the arena (indices produced by the builders
are always in range; the default is unreachable). -/
def arenaGet (a : FaArena) (i : Nat) : FaState :=
  a.getD i ⟨"", [], []⟩

/-- `state.add_epsilon_transitions(states)` (and with a singleton list,
`state.add_epsilon_transition(state)`): extends the epsilon list in place. -/
def arenaAddEps (a : FaArena) (i : Nat) (ts : List Nat) : FaArena :=
  a.set i { arenaGet a i with epsilon_transitions := (arenaGet a i).epsilon_transitions ++ ts }

/-- The `NFA` five-tuple of `fa.py` (the `epsilon_closures` attribute is the
closure computation performed by `__init__`; it is modelled separately
because it does not terminate on all builder outputs — see
`get_epsilon_closure`). -/
structure FaNFA where
  states : List Nat
  alphabet : List String
  initial_state : Nat
  accepting_states : List Nat
deriving DecidableEq, Repr

/-- `build_symbol_nfa(s)`: two fresh states labelled from the symbol alone,
one `s`-transition between them. -/
def build_symbol_nfa (s : String) (a : FaArena) : FaArena × FaNFA :=
  let i := a.length
  (a ++ [⟨"initial_" ++ s, [(s, [i + 1])], []⟩, ⟨"accepting_" ++ s, [], []⟩],
   ⟨[i, i + 1], [s], i, [i + 1]⟩)

/-- `build_concatenation_nfa(first, second)`: every accepting state of
`first` gets an epsilon edge to `second`'s initial state. -/
def build_concatenation_nfa (first second : FaNFA) (a : FaArena) : FaArena × FaNFA :=
  (first.accepting_states.foldl (fun ar s => arenaAddEps ar s [second.initial_state]) a,
   ⟨first.states.union second.states, first.alphabet.union second.alphabet,
    first.initial_state, second.accepting_states⟩)

/-- `build_union_nfa(first, second)`: a fresh initial state with epsilon
edges to both operand initials, a fresh accepting state reached by epsilon
from the operands' accepting states (paired positionally by `zip`). -/
def build_union_nfa (first second : FaNFA) (a : FaArena) : FaArena × FaNFA :=
  let i := a.length
  let a' := a ++ [⟨"initial_union", [], [first.initial_state, second.initial_state]⟩,
                  ⟨"accepting_union", [], []⟩]
  let a'' := (first.accepting_states.zip second.accepting_states).foldl
    (fun ar p => arenaAddEps (arenaAddEps ar p.1 [i + 1]) p.2 [i + 1]) a'
  (a'', ⟨(first.states.union second.states).union [i, i + 1],
         first.alphabet.union second.alphabet, i, [i + 1]⟩)

/-- `build_closure_nfa(source)`: fresh `accepting` then fresh `initial` (with
epsilon edges to the source initial and to `accepting`); every source
accepting state gets epsilon edges back to the source initial and forward to
`accepting`. -/
def build_closure_nfa (source : FaNFA) (a : FaArena) : FaArena × FaNFA :=
  let i := a.length
  let a' := a ++ [⟨"accepting_closure", [], []⟩,
                  ⟨"initial_closure", [], [source.initial_state, i]⟩]
  let a'' := source.accepting_states.foldl
    (fun ar s => arenaAddEps ar s [source.initial_state, i]) a'
  (a'', ⟨source.states.union [i + 1, i], source.alphabet, i + 1, [i]⟩)

/-- Union of fuel-bounded results: the whole computation completes only when
every sub-computation does. -/
def closCombine (acc c : Option (Finset Nat)) : Option (Finset Nat) :=
  match acc, c with
  | some accSet, some cSet => some (accSet ∪ cSet)
  | _, _ => none

/-- `State.get_epsilon_closure`:
`{self, *self.epsilon_transitions, *chain(e.get_epsilon_closure() for e ...)}`.
The Python recursion carries no visited set; the extra fuel argument bounds
the recursion depth, so the Python call diverges on a graph exactly when
this returns `none` for every fuel. -/
def get_epsilon_closure (a : FaArena) : Nat → Nat → Option (Finset Nat)
  | 0, _ => none
  | fuel + 1, s =>
    (arenaGet a s).epsilon_transitions.foldr
      (fun e acc => closCombine acc (get_epsilon_closure a fuel e))
      (some ((arenaGet a s).epsilon_transitions.foldr insert {s}))

/-- Replace-or-append for an association list, mirroring Python dict
assignment (insertion order preserved, later assignment overwrites). -/
def assocReplace {α β : Type} [DecidableEq α] : List (α × β) → α → β → List (α × β)
  | [], k, v => [(k, v)]
  | (k', v') :: rest, k, v =>
    if k' = k then (k', v) :: rest else (k', v') :: assocReplace rest k v

/-- Lookup in an association list (`d[k]`, raising `KeyError` = `none`). -/
def assocFind {α β : Type} [DecidableEq α] : List (α × β) → α → Option β
  | [], _ => none
  | (k', v) :: rest, k => if k' = k then some v else assocFind rest k

/-- Iterate a Python set of small non-negative ints: CPython yields them in
increasing order.  (`Finset.sort` relies on `mergeSort`, which the kernel
cannot reduce, so this uses insertion sort through the quotient.) -/
def setAsc (s : Finset Nat) : List Nat :=
  Quot.liftOn s.val (fun l => l.insertionSort (· ≤ ·)) fun a b h =>
    List.eq_of_perm_of_sorted
      ((List.perm_insertionSort _ a).trans (h.trans (List.perm_insertionSort _ b).symm))
      (List.sorted_insertionSort _ a) (List.sorted_insertionSort _ b)

/-- `NFA.__create_epsilon_closures` of `fa.py`:
`{s.label: s.get_epsilon_closure() for s in self.states}` — a dict keyed by
the state LABEL, so states sharing a label overwrite one another's entry. -/
def fa_create_epsilon_closures (a : FaArena) (fuel : Nat) (states : List Nat) :
    Option (List (String × Finset Nat)) :=
  states.foldlM
    (fun d s => (get_epsilon_closure a fuel s).map (assocReplace d (arenaGet a s).label))
    []

/-- One input symbol of `NFA.accepts` in `fa.py`:
`{t for c in current_states for e in self.epsilon_closures[c.label]
   for t in e.transitions.get(s, {})}`. -/
def faStep (a : FaArena) (cl : List (String × Finset Nat)) (cur : Finset Nat) (ch : Char) :
    Option (Finset Nat) :=
  (setAsc cur).foldr
    (fun c acc =>
      match acc, assocFind cl (arenaGet a c).label with
      | some accSet, some ecl =>
        some ((setAsc ecl).foldr
          (fun e acc2 =>
            ((assocFind (arenaGet a e).transitions (String.singleton ch)).getD []).foldr
              insert acc2)
          accSet)
      | _, _ => none)
    (some ∅)

/-- The symbol loop of `NFA.accepts` in `fa.py`. -/
def faRun (a : FaArena) (cl : List (String × Finset Nat)) :
    List Char → Finset Nat → Option (Finset Nat)
  | [], cur => some cur
  | ch :: rest, cur =>
    match faStep a cl cur ch with
    | some nxt => faRun a cl rest nxt
    | none => none

/-- `NFA.accepts` of `fa.py`: start from `{initial_state}`, step per symbol,
and return `not current_states.isdisjoint(accepting_states)` — no final
epsilon-closure is taken.  The closure map is the one `__init__` computes. -/
def fa_accepts (a : FaArena) (nfa : FaNFA) (fuel : Nat) (input : List Char) : Option Bool := do
  let cl ← fa_create_epsilon_closures a fuel nfa.states
  let final ← faRun a cl input {nfa.initial_state}
  return decide (final ∩ nfa.accepting_states.toFinset ≠ ∅)

/-! ### Concrete automatons built by composing the `fa.py` builders -/

/-- The symbol fragment for `a` (arena and automaton). -/
def symbolA : FaArena × FaNFA := build_symbol_nfa "a" []

/-- The automaton for `a*`: closure applied to the symbol fragment. -/
def astar : FaArena × FaNFA := build_closure_nfa symbolA.2 symbolA.1

/-- The automaton for `(a*)*`: a doubly-closed expression, whose initial and
accepting states are epsilon-connected before the outer closure is applied. -/
def astarstar : FaArena × FaNFA := build_closure_nfa astar.2 astar.1

/-- A second symbol fragment for `a` in the same arena. -/
def symbolA2 : FaArena × FaNFA := build_symbol_nfa "a" symbolA.1

/-- The automaton for `aa`: concatenation of two symbol fragments for the
same literal `a`. -/
def aaNFA : FaArena × FaNFA := build_concatenation_nfa symbolA.2 symbolA2.2 symbolA2.1

/-! ## Embedding of `finite_automaton.py` (integer-state NFA draft)

Its `transition_mappings` dicts mix key types: symbol strings, the empty
string `""`, and the integer `-1` used by the builders for epsilon edges. -/

/-- A key of a `transition_mappings` inner dict: either an `int` (the
builders use `-1` for epsilon) or a string. -/
inductive FKey : Type
  | int (n : Int)
  | str (s : String)
deriving DecidableEq, Repr

/-- `TransitionMappings`: state ↦ (key ↦ set of target states). -/
abbrev TM := List (Nat × List (FKey × List Nat))

/-- `tm.get(state, {})`. -/
def dictGetTM (tm : TM) (k : Nat) : List (FKey × List Nat) :=
  (assocFind tm k).getD []

/-- `inner.get(key, set())` / `inner.get(key, {})`. -/
def dictGetSym (m : List (FKey × List Nat)) (k : FKey) : List Nat :=
  (assocFind m k).getD []

/-- `d.update(new)`: each entry of `new` replaces or adds a key of `d`. -/
def dictUpdate {α β : Type} [DecidableEq α] (d new : List (α × β)) : List (α × β) :=
  new.foldl (fun acc p => assocReplace acc p.1 p.2) d

/-- `set.pop()` on a set of small ints (CPython pops them in increasing
order; all pops performed by the builders are on singleton sets anyway);
popping an empty set raises `KeyError` = `none`. -/
def setPop : List Nat → Option (Nat × List Nat)
  | [] => none
  | x :: rest => some (x, rest)

/-- `{s for et in epsilon_targets for s in epsilon_closures[et]}` and the
closure lookups of `accepts`: union of the recorded closures of the listed
states, `KeyError` = `none` when a state has no entry. -/
def closuresUnion (cl : List (Nat × Finset Nat)) : List Nat → Option (Finset Nat)
  | [] => some ∅
  | e :: rest =>
    match assocFind cl e, closuresUnion cl rest with
    | some c, some cs => some (c ∪ cs)
    | _, _ => none

/-- `NFA.__create_epsilon_predecessors`: scan `transition_mappings` for `-1`
keys and record, for every epsilon target, the set of its sources
(`defaultdict(set)`). -/
def create_epsilon_predecessors (tm : TM) : List (Nat × Finset Nat) :=
  tm.foldl
    (fun preds p =>
      match assocFind p.2 (FKey.int (-1)) with
      | some ts => ts.foldl (fun pr s => assocReplace pr s ((assocFind pr s).getD ∅ ∪ {p.1})) preds
      | none => preds)
    []

/-- The `while work_list:` loop of `NFA.__create_epsilon_closures`.  Each
state is processed exactly once (in increasing order, matching CPython's
`set.pop` on small ints): the source line `work_list.union(...)` calls
`set.union`, which returns a new set whose value is discarded, so nothing is
ever re-enqueued.  Epsilon targets are read from key `""` (while the
builders write epsilon edges under key `-1`). -/
def eclosGo (tm : TM) : List Nat → List (Nat × Finset Nat) → Option (List (Nat × Finset Nat))
  | [], cl => some cl
  | state :: rest, cl =>
    let targets := dictGetSym (dictGetTM tm state) (FKey.str "")
    match closuresUnion cl targets, assocFind cl state with
    | some newClo, some cur =>
      if newClo ≠ cur then eclosGo tm rest (assocReplace cl state (cur ∪ newClo))
      else eclosGo tm rest cl
    | _, _ => none

/-- `NFA.__create_epsilon_closures`: closures start as `{s: {s}}`; the
predecessor map is computed but (because the `work_list.union` result is
discarded) never used. -/
def create_epsilon_closures (tm : TM) (states : List Nat) : Option (List (Nat × Finset Nat)) :=
  let _epsilon_predecessors := create_epsilon_predecessors tm
  eclosGo tm states (states.map fun s => (s, ({s} : Finset Nat)))

/-- The `NFA` of `finite_automaton.py`; `epsilon_closures` is filled by the
constructor (`mkFNFA`).  `accepting_states` is a set the builders `pop`
from, kept as a list. -/
structure FNFA where
  states : Finset Nat
  alphabet : Finset Char
  transition_mappings : TM
  start_state : Nat
  accepting_states : List Nat
  epsilon_closures : List (Nat × Finset Nat)
deriving DecidableEq

/-- The `NFA.__init__` constructor: stores the five-tuple and computes the
epsilon closures over the state set (iterated in increasing order). -/
def mkFNFA (states : Finset Nat) (alphabet : Finset Char) (tm : TM) (start : Nat)
    (acc : List Nat) : Option FNFA :=
  (create_epsilon_closures tm (setAsc states)).map fun cl =>
    ⟨states, alphabet, tm, start, acc, cl⟩

/-- `NFA.from_symbol(s)`: states `{0, 1}`, alphabet `set(s)`, one transition
on `s` from `0` to `1`. -/
def from_symbol (c : Char) : Option FNFA :=
  mkFNFA {0, 1} {c} [(0, [(FKey.str (String.singleton c), [1])])] 0 [1]

/-- Inner loop of `reorder_transition_mappings` for a fixed source state `k`:
`{k + i: {kk: {vv.pop() + i}} ...}` — `vv.pop()` removes an element from the
operand's own target set, and each `kk` overwrites the previous entry at key
`k + i`.  Returns the accumulated new dict and the mutated inner dict. -/
def reorderInner (k i : Nat) : List (FKey × List Nat) → TM → Option (TM × List (FKey × List Nat))
  | [], acc => some (acc, [])
  | (kk, vv) :: rest, acc =>
    match setPop vv with
    | none => none
    | some (t, vvRest) =>
      match reorderInner k i rest (assocReplace acc (k + i) [(kk, [t + i])]) with
      | none => none
      | some (acc', restMut) => some (acc', (kk, vvRest) :: restMut)

/-- Outer loop of `reorder_transition_mappings` over the states of `tm`. -/
def reorderOuter (i : Nat) : TM → TM → Option (TM × TM)
  | [], acc => some (acc, [])
  | (k, v) :: rest, acc =>
    match reorderInner k i v acc with
    | none => none
    | some (acc', vMut) =>
      match reorderOuter i rest acc' with
      | none => none
      | some (acc'', restMut) => some (acc'', (k, vMut) :: restMut)

/-- `reorder_transition_mappings(tm, i)` of `finite_automaton.py`; the second
component is the operand's transition dict after the side effects of the
`vv.pop()` calls. -/
def reorder_transition_mappings (tm : TM) (i : Nat) : Option (TM × TM) :=
  reorderOuter i tm []

/-- `NFA.from_union(first, second)`.  Mirrors the source line by line,
including the `accepting_states.pop()` calls and the `reorder` side effects
on the operands; returns (result, first after mutation, second after
mutation). -/
def from_union (first second : FNFA) : Option (FNFA × FNFA × FNFA) := do
  let fn := first.states.card
  let sn := second.states.card
  let states : Finset Nat := Finset.range (fn + sn)
  let alphabet := first.alphabet ∪ second.alphabet
  let (fPopped, fAccRest) ← setPop first.accepting_states
  let (sPopped, sAccRest) ← setPop second.accepting_states
  let tm0 : TM :=
    dictUpdate []
      [(0, [(FKey.int (-1), [first.start_state + 1, second.start_state + fn + 1])]),
       (fPopped + 1, [(FKey.int (-1), [fn + sn + 1])]),
       (sPopped + fn + 1, [(FKey.int (-1), [fn + sn + 1])])]
  let (fNew, fTMMut) ← reorder_transition_mappings first.transition_mappings 1
  let (sNew, sTMMut) ← reorder_transition_mappings second.transition_mappings (fn + 1)
  let tm := dictUpdate (dictUpdate tm0 fNew) sNew
  let result ← mkFNFA states alphabet tm 0 [fn + sn + 1]
  return (result,
    { first with accepting_states := fAccRest, transition_mappings := fTMMut },
    { second with accepting_states := sAccRest, transition_mappings := sTMMut })

/-- `NFA.from_concatenation(first, second)`, with the same mutation
conventions as `from_union`. -/
def from_concatenation (first second : FNFA) : Option (FNFA × FNFA × FNFA) := do
  let fn := first.states.card
  let states := second.states.image (· + fn) ∪ first.states
  let alphabet := first.alphabet ∪ second.alphabet
  let (fPopped, fAccRest) ← setPop first.accepting_states
  let tm0 : TM := [(fPopped, [(FKey.int (-1), [second.start_state + fn])])]
  let tm1 := dictUpdate tm0 first.transition_mappings
  let (sNew, sTMMut) ← reorder_transition_mappings second.transition_mappings fn
  let tm := dictUpdate tm1 sNew
  let (sPopped, sAccRest) ← setPop second.accepting_states
  let result ← mkFNFA states alphabet tm first.start_state [sPopped + fn]
  return (result,
    { first with accepting_states := fAccRest },
    { second with accepting_states := sAccRest, transition_mappings := sTMMut })

/-- `NFA.from_kleene_closure`: the method body is `pass`, so it returns
Python `None` whatever its argument is. -/
def from_kleene_closure (_nfa : Option FNFA) : Option FNFA :=
  none

/-- One input symbol of `NFA.accepts` in `finite_automaton.py`:
`{s for cs in current_states for ecs in self.epsilon_closures[cs]
   for s in self.transition_mappings.get(ecs, {}).get(i, {})}`. -/
def fnfaStep (nfa : FNFA) (cur : Finset Nat) (ch : Char) : Option (Finset Nat) :=
  (closuresUnion nfa.epsilon_closures (setAsc cur)).map fun ecsAll =>
    (setAsc ecsAll).foldr
      (fun ecs acc =>
        (dictGetSym (dictGetTM nfa.transition_mappings ecs)
          (FKey.str (String.singleton ch))).foldr insert acc)
      ∅

/-- The symbol loop of `NFA.accepts` in `finite_automaton.py`. -/
def fnfaRun (nfa : FNFA) : List Char → Finset Nat → Option (Finset Nat)
  | [], cur => some cur
  | ch :: rest, cur =>
    match fnfaStep nfa cur ch with
    | some nxt => fnfaRun nfa rest nxt
    | none => none

/-- `NFA.accepts` of `finite_automaton.py`: start from `{start_state}`, step
per symbol, and return `current_states.issubset(accepting_states)` — no
final epsilon closure, and subset instead of intersection. -/
def fnfa_accepts (nfa : FNFA) (input : List Char) : Option Bool :=
  (fnfaRun nfa input {nfa.start_state}).map fun cur =>
    decide (cur ⊆ nfa.accepting_states.toFinset)

/-! ## Embedding of `scanner.py` -/

/-- The stack loop of `create_nfa`.  Stack entries are Python values that may
be `None` (as produced by `from_kleene_closure`); the top of the stack is the
head, so `pop(-2)` takes the second element.  `none` overall models an
uncaught `IndexError`/`AttributeError`. -/
def cnGo : List Char → List (Option FNFA) → Option (List (Option FNFA))
  | [], stack => some stack
  | c :: cs, stack =>
    if c = '?' then
      match stack with
      | b :: a :: rest =>
        match a, b with
        | some an, some bn =>
          match from_concatenation an bn with
          | some (r, _, _) => cnGo cs (some r :: rest)
          | none => none
        | _, _ => none
      | _ => none
    else if c = '|' then
      match stack with
      | b :: a :: rest =>
        match a, b with
        | some an, some bn =>
          match from_union an bn with
          | some (r, _, _) => cnGo cs (some r :: rest)
          | none => none
        | _, _ => none
      | _ => none
    else if c = '*' then
      match stack with
      | x :: rest => cnGo cs ( from_kleene_closure x :: rest)
      | [] => none
    else
      match from_symbol c with
      | some n => cnGo cs (some n :: stack)
      | none => none

/-- `create_nfa(regex)` of `scanner.py`: run the stack loop, then return
`nfa_stack.pop()` — the top of the final stack, with no check that exactly
one fragment remains; the popped value may itself be Python `None`. -/
def create_nfa (regex : List Char) : Option (Option FNFA) :=
  (cnGo regex []).bind fun stack =>
    match stack with
    | [] => none
    | top :: _ => some top

/-- The public pipeline: `create_nfa(convert_to_postfix(format_regex(r)))`
followed by `.accepts(input)`; `none` models any uncaught exception along
the way (including calling `accepts` on a `None` automaton). -/
def pipeline_accepts (regex input : List Char) : Option Bool := do
  let post ← convert_to_postfix (format_regex regex)
  let built ← create_nfa post
  let nfa ← built
  fnfa_accepts nfa input

/-! ### Concrete graphs for the epsilon-closure strategy comparison -/

/-- A three-state epsilon chain `0 → 1 → 2` in the `finite_automaton.py`
representation (epsilon edges under key `""`, as in its own test suite). -/
def chainTM : TM := [(0, [(FKey.str "", [1])]), (1, [(FKey.str "", [2])])]

/-- The states of the chain graph. -/
def chainStates : List Nat := [0, 1, 2]

/-- The same three-state epsilon chain in the `fa.py` representation. -/
def chainArena : FaArena := [⟨"s0", [], [1]⟩, ⟨"s1", [], [2]⟩, ⟨"s2", [], []⟩]

/-! ## Theorems -/

/-- Combining with a failed sub-computation on the right fails. -/
lemma closCombine_none_right (x : Option (Finset Nat)) : closCombine x none = none := by
  cases x <;> rfl

/-- Combining with a failed sub-computation on the left fails. -/
lemma closCombine_none_left (x : Option (Finset Nat)) : closCombine none x = none := by
  cases x <;> rfl

/-- Helper for claim C2: in the `(a*)*` automaton the inner closure's initial
state (index 3) and accepting state (index 2) are epsilon-connected in both
directions, so `get_epsilon_closure` returns within no recursion depth at
either of them. -/
lemma astarstar_closure_none :
    ∀ n, get_epsilon_closure astarstar.1 n 3 = none ∧
         get_epsilon_closure astarstar.1 n 2 = none := by
  intro n
  induction n with
  | zero => exact ⟨rfl, rfl⟩
  | succ n ih =>
    constructor
    · simp only [get_epsilon_closure]
      have he : (arenaGet astarstar.1 3).epsilon_transitions = [0, 2] := rfl
      rw [he]
      simp only [List.foldr]
      rw [ih.2, closCombine_none_right, closCombine_none_left]
    · simp only [get_epsilon_closure]
      have he : (arenaGet astarstar.1 2).epsilon_transitions = [3, 4] := rfl
      rw [he]
      simp only [List.foldr]
      rw [ih.1, closCombine_none_right]

/-- Claim C1: `accepts` is claimed to return true iff the epsilon-closure of
the state set remaining after the whole string has a non-empty intersection
with the accepting set.  On the `a*` automaton with the empty string, the
epsilon-closure of the remaining set `{initial_closure}` does intersect the
accepting set, yet `fa.py`'s `accepts` returns `False`: the final
epsilon-closure step is missing. -/
theorem c1_accepts_omits_final_closure :
    fa_accepts astar.1 astar.2 10 [] = some false ∧
    (get_epsilon_closure astar.1 10 astar.2.initial_state).map
      (fun s => decide (s ∩ astar.2.accepting_states.toFinset ≠ ∅)) = some true := by
  constructor
  · rfl
  · decide

/-- Claim C2: the epsilon-closure computation at construction is claimed to
terminate for every builder-produced automaton, including epsilon-cyclic
ones such as a doubly-closed expression.  For `(a*)*` the closure dict built
by `NFA.__init__` (`fa_create_epsilon_closures`) fails to complete within
ANY recursion depth: `get_epsilon_closure` has no visited set and recurses
forever around the epsilon cycle between states 3 and 2. -/
theorem c2_closure_construction_diverges :
    ∀ fuel, fa_create_epsilon_closures astarstar.1 fuel astarstar.2.states = none := by
  intro fuel
  cases fuel with
  | zero => rfl
  | succ n =>
    have h1 : get_epsilon_closure astarstar.1 (n + 1) 1 = none := by
      simp only [get_epsilon_closure]
      have he : (arenaGet astarstar.1 1).epsilon_transitions = [0, 2] := rfl
      rw [he]
      simp only [List.foldr]
      rw [(astarstar_closure_none n).2, closCombine_none_right, closCombine_none_left]
    have hs : astarstar.2.states = [0, 1, 3, 2, 5, 4] := rfl
    have h0 : get_epsilon_closure astarstar.1 (n + 1) 0 = some {0} := rfl
    rw [fa_create_epsilon_closures, hs]
    simp only [List.foldlM, h0, h1, Option.map, Option.bind]
    rfl

/-- Claim C3: compiling `toPostfix(normalize("ab"))` is claimed to accept
`"ab"` only and reject `"a"`; compiling `toPostfix(normalize("a*"))` is
claimed to accept `""`.  In fact the pipeline accepts `"a"` for the regex
`"ab"` (the postfix evaluator dispatches concatenation on `"?"` while the
converter emits `"."`, so the `"."` is compiled as a literal symbol fragment
that is returned with two operand fragments left behind, and `accepts` uses
`issubset`, which is vacuously true for the empty state set), and for
`"a*"` it crashes (`from_kleene_closure` returns `None`). -/
theorem c3_pipeline_scenarios_fail :
    pipeline_accepts ['a', 'b'] ['a'] = some true ∧
    pipeline_accepts ['a', '*'] [] = none := by
  constructor
  · decide
  · decide

/-- Claim C4: the eager work-list strategy
(`finite_automaton.NFA.__create_epsilon_closures`) is claimed to assign
every state the set given by the per-state recursive definition
(`fa.State.get_epsilon_closure`).  On the epsilon chain `0 → 1 → 2`, on
which both terminate, the recursive definition gives `{0, 1, 2}` for state
`0`, while the work-list computation — whose `work_list.union(...)` call
discards its result, so state `0` is processed exactly once, before state
`1`'s closure has been completed — gives `{0, 1}`. -/
theorem c4_closure_strategies_disagree :
    get_epsilon_closure chainArena 5 0 = some ({0, 1, 2} : Finset Nat) ∧
    ((create_epsilon_closures chainTM chainStates).bind fun cl => assocFind cl 0) =
      some ({0, 1} : Finset Nat) := by
  constructor
  · decide
  · decide

/-- Claim C7: a `(` still on the operator stack after the whole input is
scanned is claimed to be detected as a fatal syntax error and never emitted
into the postfix output.  For the input `"(a"` the converter instead
terminates normally and emits the leftover `(` into its output.  (A `)`
with no matching `(`, by contrast, does abort: modelled by `none`.) -/
theorem c7_leftover_lparen_emitted :
    convert_to_postfix ['(', 'a'] = some ['a', '('] ∧
    convert_to_postfix [')'] = none := by
  constructor
  · rfl
  · rfl

/-- Claim C8: `create_nfa` is claimed to signal a fatal construction error,
returning no automaton, when more than one fragment remains after the
postfix stream is exhausted, with the exactly-one-remaining condition
checked explicitly.  For the input `"ab"` two fragments remain on the stack,
yet `create_nfa` silently returns the top one (the `b` fragment). -/
theorem c8_leftover_fragments_ignored :
    (cnGo ['a', 'b'] []).map List.length = some 2 ∧
    create_nfa ['a', 'b'] = some (from_symbol 'b') := by
  constructor
  · decide
  · decide

/-- Claim C9: the union builder is claimed to leave each operand automaton's
own components unchanged.  In fact `NFA.from_union` calls
`accepting_states.pop()` on both operands (emptying their accepting sets)
and `reorder_transition_mappings` calls `vv.pop()` on the operands' own
transition target sets (emptying the `a`-target set of the first operand's
state `0`). -/
theorem c9_union_mutates_operands :
    ((from_symbol 'a').bind fun a => (from_symbol 'b').bind fun b =>
      (from_union a b).map fun t => t.2.1.accepting_states) = some [] ∧
    ((from_symbol 'a').map fun a => a.accepting_states) = some [1] ∧
    ((from_symbol 'a').bind fun a => (from_symbol 'b').bind fun b =>
      (from_union a b).map fun t =>
        dictGetSym (dictGetTM t.2.1.transition_mappings 0) (FKey.str "a")) = some [] ∧
    ((from_symbol 'a').map fun a =>
      dictGetSym (dictGetTM a.transition_mappings 0) (FKey.str "a")) = some [1] := by
  refine ⟨by decide, by decide, by decide, by decide⟩

/-- The source's numeric pop condition `PRECEDENCE[o] <= PRECEDENCE[c]`
coincides with the spec's "pop stacked operators of higher-or-equal
precedence, never past a `(`" for every operator `c` the loop can receive. -/
lemma prec_cond (o c : Char) (hc : c = CONCATENATION ∨ c = ALTERNATION ∨ c = CLOSURE) :
    PRECEDENCE o ≤ PRECEDENCE c ↔ spec_pops c o = true := by
  rcases hc with hc | hc | hc <;> subst hc <;>
    simp only [PRECEDENCE, spec_pops, spec_prec, CLOSURE, CONCATENATION, ALTERNATION,
      LPAREN, RPAREN, decide_eq_true_eq, ne_eq] <;>
    split_ifs <;> simp_all

/-- The operator loop of the source equals take/drop along the spec's pop
condition. -/
lemma popGE_eq (c : Char) (hc : c = CONCATENATION ∨ c = ALTERNATION ∨ c = CLOSURE) :
    ∀ ops out, popGE c ops out =
      (c :: ops.dropWhile (spec_pops c), out ++ ops.takeWhile (spec_pops c)) := by
  intro ops
  induction ops with
  | nil => intro out; simp [popGE]
  | cons o rest ih =>
    intro out
    by_cases h : PRECEDENCE o ≤ PRECEDENCE c
    · have hs : spec_pops c o = true := (prec_cond o c hc).mp h
      rw [popGE, if_pos h, ih, List.dropWhile_cons, List.takeWhile_cons, hs]
      simp
    · have hs : spec_pops c o = false := by
        rcases hb : spec_pops c o with _ | _
        · rfl
        · exact absurd ((prec_cond o c hc).mpr hb) h
      rw [popGE, if_neg h, List.dropWhile_cons, List.takeWhile_cons, hs]
      simp

/-- The right-parenthesis loop of the source equals take/drop up to the first
`(` (with failure when there is none). -/
lemma popUntilLparen_eq :
    ∀ ops out, popUntilLparen ops out =
      match ops.dropWhile (fun o => o ≠ LPAREN) with
      | [] => none
      | _ :: rest => some (rest, out ++ ops.takeWhile (fun o => o ≠ LPAREN)) := by
  intro ops
  induction ops with
  | nil => intro out; rfl
  | cons o rest ih =>
    intro out
    by_cases h : o = LPAREN
    · subst h
      simp [popUntilLparen, List.dropWhile_cons, List.takeWhile_cons]
    · rw [popUntilLparen, if_neg h, ih, List.dropWhile_cons, List.takeWhile_cons]
      have hb : decide (o ≠ LPAREN) = true := by simp [h]
      rw [hb]
      cases rest.dropWhile (fun o => o ≠ LPAREN) with
      | nil => rfl
      | cons x xs => simp

/-- The source scan and the spec scan agree from any intermediate state. -/
lemma convGo_eq_shuntGo :
    ∀ cs out ops, convGo cs out ops = shuntGo cs out ops := by
  intro cs
  induction cs with
  | nil => intro out ops; rfl
  | cons c cs ih =>
    intro out ops
    rw [convGo, shuntGo]
    by_cases h1 : c ∈ SPECIAL_CHARS
    · have hn : ¬c ∉ SPECIAL_CHARS := not_not_intro h1
      rw [if_neg hn, if_neg hn]
      by_cases h2 : c = LPAREN
      · rw [if_pos h2, if_pos h2, ih]
      · rw [if_neg h2, if_neg h2]
        by_cases h3 : c = RPAREN
        · rw [if_pos h3, if_pos h3, popUntilLparen_eq]
          cases ops.dropWhile (fun o => o ≠ LPAREN) with
          | nil => rfl
          | cons x xs => exact ih _ _
        · rw [if_neg h3, if_neg h3]
          have hc : c = CONCATENATION ∨ c = ALTERNATION ∨ c = CLOSURE := by
            simp only [SPECIAL_CHARS, List.mem_cons, List.not_mem_nil, or_false] at h1
            rcases h1 with h | h | h | h | h
            · exact Or.inr (Or.inl h)
            · exact Or.inr (Or.inr h)
            · exact absurd h h2
            · exact absurd h h3
            · exact Or.inl h
          rw [popGE_eq c hc]
          exact ih _ _
    · rw [if_pos h1, if_pos h1, ih]

/-- Claim C5: `toPostfix` (`convert_to_postfix`) implements the restricted
shunting-yard algorithm with precedence closure > concatenation >
alternation and left associativity — literals are emitted directly, an
operator pops every stacked operator of higher-or-equal precedence before
being pushed, parentheses override precedence locally, and remaining
stacked operators are appended last-pushed-first; in particular
`toPostfix("a.a.b") = "aa.b."` and `toPostfix("a|b*") = "ab*|"`.  Proved by
showing `convert_to_postfix` equals the spec-side `shunting_spec` on every
input. -/
theorem c5_shunting_yard_correct :
    (∀ r : List Char, convert_to_postfix r = shunting_spec r) ∧
    convert_to_postfix ['a', '.', 'a', '.', 'b'] = some ['a', 'a', '.', 'b', '.'] ∧
    convert_to_postfix ['a', '|', 'b', '*'] = some ['a', 'b', '*', '|'] := by
  refine ⟨fun r => convGo_eq_shuntGo r [] [], by decide, by decide⟩

/-- Dropping at an in-range index peels off the element at that index. -/
lemma drop_cons_getD : ∀ (R : List Char) (j : Nat), j < R.length →
    R.drop j = R.getD j ' ' :: R.drop (j + 1) := by
  intro R
  induction R with
  | nil => intro j h; simp at h
  | cons a rest ih =>
    intro j h
    cases j with
    | zero => simp
    | succ j =>
      have hj : j < rest.length := by simpa using h
      simpa using ih j hj

/-- The indexed comprehension of `format_regex`, started at position `j`,
produces exactly the pairwise insertion of `normalize_spec` on the suffix
from `j`. -/
lemma fr_suffix (R : List Char) :
    ∀ n j, n = R.length - j →
      ((List.range' j n).map (frPiece R)).flatten = normalize_spec (R.drop j) := by
  intro n
  induction n with
  | zero =>
    intro j hn
    have hle : R.length ≤ j := by omega
    rw [List.drop_eq_nil_of_le hle]
    rfl
  | succ n ih =>
    intro j hn
    have hj : j < R.length := by omega
    rw [List.range'_succ]
    simp only [List.map, List.flatten_cons]
    rw [drop_cons_getD R j hj]
    by_cases hj2 : j + 1 < R.length
    · have htail := ih (j + 1) (by omega)
      rw [drop_cons_getD R (j + 1) hj2] at htail
      rw [drop_cons_getD R (j + 1) hj2]
      rw [frPiece]
      have hc : decide (j + 1 < R.length) = true := by simp [hj2]
      rw [hc]
      simp only [Bool.true_and]
      by_cases hsc : should_concatenate (R.getD j ' ') (R.getD (j + 1) ' ') = true
      · simp only [hsc, if_true, normalize_spec, htail]
        rfl
      · rw [if_neg hsc]
        simp only [normalize_spec, htail]
        rw [if_neg hsc]
        rfl
    · have hj1 : R.length = j + 1 := by omega
      have h0 : n = 0 := by omega
      subst h0
      have hdrop : R.drop (j + 1) = [] := List.drop_eq_nil_of_le (by omega)
      rw [hdrop, frPiece]
      have hc : decide (j + 1 < R.length) = false := by simp [hj1]
      rw [hc]
      simp [normalize_spec]

/-- Claim C6: `normalize` (`format_regex`) inserts an explicit concatenation
operator between every adjacent token pair except when the first is `(` or
`|` or the second is `)`, `*` or `|`; the empty input maps to empty and a
single token is unchanged; `normalize("ab") = "a.b"` and
`normalize("a(a|b)*b") = "a.(a|b)*.b"`.  Proved by showing `format_regex`
equals the pairwise specification `normalize_spec` on every input. -/
theorem c6_format_regex_correct :
    (∀ r : List Char, format_regex r = normalize_spec r) ∧
    format_regex [] = [] ∧
    (∀ c : Char, format_regex [c] = [c]) ∧
    format_regex ['a', 'b'] = ['a', '.', 'b'] ∧
    format_regex ['a', '(', 'a', '|', 'b', ')', '*', 'b'] =
      ['a', '.', '(', 'a', '|', 'b', ')', '*', '.', 'b'] := by
  have hmain : ∀ r : List Char, format_regex r = normalize_spec r := by
    intro r
    rw [format_regex, List.range_eq_range']
    have := fr_suffix r r.length 0 (by omega)
    rwa [List.drop_zero] at this
  refine ⟨hmain, rfl, ?_, by decide, by decide⟩
  intro c
  rfl

/-- Claim C10: distinct states of a builder-composed automaton are claimed
to carry pairwise-distinct labels, so that the label-keyed closure map has
one entry per state.  Concatenating two symbol fragments for the same
literal `a` produces four states carrying only two distinct labels (states
`0` and `2` are both labelled `initial_a`), and the closure dict built at
construction has two entries for the four states. -/
theorem c10_duplicate_labels :
    aaNFA.2.states = [0, 1, 2, 3] ∧
    (arenaGet aaNFA.1 0).label = (arenaGet aaNFA.1 2).label ∧
    (fa_create_epsilon_closures aaNFA.1 10 aaNFA.2.states).map List.length = some 2 := by
  refine ⟨rfl, rfl, rfl⟩

end Pyfsa
